import Mathlib

/-! # Verification of the polygon REST base client core

Shallow embedding of the range-splitting, time-normalization, pagination and
fetch-merge logic of `polygon/base_client.py` (class `Base`, `BaseClient`,
and the matching `BaseAsyncClient` methods, whose bodies coincide with the
synchronous ones on the modeled fragment).

Modeling conventions:
* Instants are integer epoch milliseconds (`Int`).  `datetime` arithmetic is
  exact at millisecond precision, so a Python `datetime` value is represented
  by its instant; `timedelta.days` of a duration `d` is `d.fdiv msPerDay`
  (Python floor division).
* A record (candle) is represented by the only field the engine inspects,
  its `t` timestamp.
* A decoded response dict is represented by the fields the walker and the
  merge engine inspect: `results`, `next_url`, `previous_url`, `status`
  (each `Option`, `none` meaning the key is absent; a `KeyError` branch
  corresponds to matching `none`).
* `while 1:` loops are written with an explicit fuel parameter; the result
  type is `Option`, where `none` means the Python call does not return
  normally (fuel exhausted, i.e. non-termination, or an uncaught
  `IndexError` from `final_results[-1]` on an empty list).
* `normalize_datetime` is the identity on integer instants for the
  `ts`/`nts` output kinds (the `isinstance(dt, (int, float))` branch), so
  the splitter and the fetch engine are stated directly over `Int` instants.
-/

namespace Polygon

/-- Milliseconds per day.  `timedelta.days` of a millisecond duration `d` is
`d.fdiv msPerDay`. -/
def msPerDay : Int := 86400000

/-- `TIME_FRAME_CHUNKS` (base_client.py lines 16-26), chunk durations in
milliseconds: `second ↦ 1 hour`, `minute/min ↦ 45 days`, `hour ↦ 60 days`,
all coarser keys `↦ 3500 days`. -/
def TIME_FRAME_CHUNKS (timespan : String) : Option Int :=
  if timespan = "second" then some 3600000
  else if timespan = "minute" then some (45 * msPerDay)
  else if timespan = "min" then some (45 * msPerDay)
  else if timespan = "hour" then some (60 * msPerDay)
  else if timespan = "day" then some (3500 * msPerDay)
  else if timespan = "week" then some (3500 * msPerDay)
  else if timespan = "month" then some (3500 * msPerDay)
  else if timespan = "quarter" then some (3500 * msPerDay)
  else if timespan = "year" then some (3500 * msPerDay)
  else none

/-- The chunk duration actually used by `Base.split_date_range`
(lines 50-66): the `min` alias is rewritten to `minute`, the table is
consulted (`none` models the raised `ValueError`), and when
`high_volatility` is set the duration is replaced by
`timedelta(days=delta.days - 20)` for minute/hour and
`timedelta(days=delta.days - 1500)` for every other key. -/
def split_delta (timespan : String) (high_volatility : Bool) : Option Int :=
  let ts := if timespan = "min" then "minute" else timespan
  match TIME_FRAME_CHUNKS ts with
  | none => none
  | some delta =>
    if high_volatility then
      if ts = "minute" ∨ ts = "hour" then some ((delta.fdiv msPerDay - 20) * msPerDay)
      else some ((delta.fdiv msPerDay - 1500) * msPerDay)
    else some delta

/-- The `while 1:` walk of `Base.split_date_range` (lines 77-88);
`current + delta` is `probable_next_date`.  `acc` is `final_time_chunks`.
`none` means the loop ran out of fuel (the Python loop does not terminate,
which happens for a non-positive `delta`). -/
def splitLoop (delta e : Int) : Nat → Int → List (Int × Int) → Option (List (Int × Int))
  | 0, _, _ => none
  | fuel + 1, current, acc =>
    if e ≤ current + delta then
      if current = current + delta then some acc
      else some (acc ++ [(current, e)])
    else
      splitLoop delta e fuel (current + delta) (acc ++ [(current, current + delta)])

/-- `Base.split_date_range` (lines 34-93) over integer-millisecond
instants (on which the two `normalize_datetime` passes are the identity at
the instant level).  The small-range test compares `(end - start).days`
with `delta.days`; the single-window branch returns the original inputs
unchanged and is not subject to the final `reverse`. -/
def split_date_range (start e : Int) (timespan : String)
    (high_volatility : Bool) (reverse : Bool) : Option (List (Int × Int)) :=
  match split_delta timespan high_volatility with
  | none => none
  | some delta =>
    if (e - start).fdiv msPerDay < delta.fdiv msPerDay then
      some [(start, e)]
    else
      match splitLoop delta e ((e - start).toNat + 2) start [] with
      | none => none
      | some ws => some (if reverse then ws.reverse else ws)

/-- Everything `split_date_range` must guarantee about its output on
`[s, e]`: a non-empty window list that starts at `s`, ends at `e`, has
only forward windows, consecutive windows that meet exactly at their
boundary (no gap, no overlap), and is chronologically ordered with
pairwise non-overlapping windows. -/
def IsChunkCover (s e : Int) (ws : List (Int × Int)) : Prop :=
  ws ≠ [] ∧ ws.head?.map Prod.fst = some s ∧ ws.getLast?.map Prod.snd = some e ∧
  (∀ w ∈ ws, w.1 < w.2) ∧ List.Chain' (fun a b => a.2 = b.1) ws ∧
  List.Pairwise (fun a b => a.2 ≤ b.1) ws

/-- Input shapes accepted by `Base.normalize_datetime` (lines 95-159).
A `datetime.datetime` and a string are abstracted to the instant
(resp. the calendar date, as a day number) they denote; a string carries
the date that `strptime` parses out of it; `num` covers the
`isinstance(dt, (int, float))` branch. -/
inductive DTInput where
  | datetime (aware : Bool) (ms : Int)
  | str (dateVal : Int)
  | date (dateVal : Int)
  | num (ts : Int)
deriving DecidableEq

/-- Output representations of `normalize_datetime`: an epoch timestamp, a
formatted string (abstracted to the day number it renders), a datetime
(abstracted to its instant) or a calendar date (a day number). -/
inductive DTOutput where
  | ts (ms : Int)
  | str (dateVal : Int)
  | datetime (ms : Int)
  | date (dateVal : Int)
deriving DecidableEq

/-- The `isinstance(dt, datetime.date)` block of `normalize_datetime`
(lines 136-146), for a calendar date `d` (day number): `start` boundary
maps to 00:00:00 of the day, `end` to 23:59:00 (86340000 ms into the day);
`str`/`nts` render the date; no branch matching means the Python function
falls through and returns `None`. -/
def normalize_date_branch (d : Int) (output_type _dir : String) : Option DTOutput :=
  if output_type = "ts" ∧ _dir = "start" then some (.ts (d * msPerDay))
  else if output_type = "ts" ∧ _dir = "end" then some (.ts (d * msPerDay + 86340000))
  else if output_type = "str" ∨ output_type = "nts" then some (.str d)
  else if output_type = "datetime" then some (.datetime (d * msPerDay))
  else if output_type = "date" then some (.date d)
  else none

/-- `Base.normalize_datetime` (lines 95-159) at the default `ms` unit.
`none` models Python's implicit `return None` when no `isinstance` branch
combined with `output_type` matches.  A `datetime.datetime` input whose
`output_type` matches nothing falls through into the `datetime.date`
branch (a `datetime` is an instance of `date` in Python); a parsed string
is treated as the date it denotes. -/
def normalize_datetime (dt : DTInput) (output_type : String) (_dir : String) : Option DTOutput :=
  match dt with
  | .datetime _aware ms =>
    if output_type = "date" then some (.date (ms.fdiv msPerDay))
    else if output_type = "datetime" then some (.datetime ms)
    else if output_type = "ts" ∨ output_type = "nts" then some (.ts ms)
    else if output_type = "str" then some (.str (ms.fdiv msPerDay))
    else normalize_date_branch (ms.fdiv msPerDay) output_type _dir
  | .str d => normalize_date_branch d output_type _dir
  | .date d => normalize_date_branch d output_type _dir
  | .num n =>
    if output_type = "ts" ∨ output_type = "nts" then some (.ts n)
    else if output_type = "str" then some (.str (n.fdiv msPerDay))
    else if output_type = "datetime" then some (.datetime n)
    else if output_type = "date" then some (.date (n.fdiv msPerDay))
    else none

/-- A decoded response page, keeping only the fields the pagination walker
and the merge step inspect.  `none` in a field means the key is absent
from the dict (access raises `KeyError`). -/
structure Page where
  next_url : Option String := none
  previous_url : Option String := none
  results : Option (List Int) := none
  status : Option String := none
deriving DecidableEq

/-- `BaseClient.get_next_page` (lines 310-333): read `next_url` from the
current page (`KeyError` ⇒ `False`, modeled `none`) and fetch that URL via
the transport collaborator `fetchUrl`. -/
def get_next_page (fetchUrl : String → Page) (p : Page) : Option Page :=
  match p.next_url with
  | none => none
  | some url => some (fetchUrl url)

/-- `BaseClient.get_previous_page` (lines 335-360), the `previous_url`
mirror of `get_next_page`. -/
def get_previous_page (fetchUrl : String → Page) (p : Page) : Option Page :=
  match p.previous_url with
  | none => none
  | some url => some (fetchUrl url)

/-- The `while 1:` walk of `BaseClient.get_all_pages` (lines 399-421):
stop when the collected count reaches the cap (`cap = none` is the
`float("inf")` substitute, never reached), else follow one cursor; a
missing cursor (`fn` returns falsy) ends the walk.  `container` collects
the fetched pages (decoded and raw pages coincide here since
`to_json_safe` is the identity on the model). -/
def getAllPagesLoop (fn : Page → Option Page) (cap : Option Int) :
    Nat → Page → List Page → Option (List Page)
  | 0, _, _ => none
  | fuel + 1, res, container =>
    if (match cap with | none => false | some k => decide (k ≤ (container.length : Int))) then
      some container
    else
      match fn res with
      | none => some container
      | some res2 => getAllPagesLoop fn cap fuel res2 (container ++ [res2])

/-- `BaseClient.get_all_pages` (lines 362-421).  `if not max_pages:` makes
both `None` and `0` select the infinite cap (Python truthiness); the
direction chooses between the next- and previous-cursor followers. -/
def get_all_pages (fetchUrl : String → Page) (old : Page) (max_pages : Option Int)
    (direction : String) (fuel : Nat) : Option (List Page) :=
  let cap : Option Int :=
    match max_pages with
    | none => none
    | some k => if k = 0 then none else some k
  let fn := if direction = "prev" ∨ direction = "previous" then get_previous_page fetchUrl
            else get_next_page fetchUrl
  getAllPagesLoop fn cap fuel old []

/-- The `max_pages -= 1` adjustment at the top of `BaseClient._paginate`
(lines 443-444): applied only when `max_pages` is an `int`. -/
def paginateCap : Option Int → Option Int
  | none => none
  | some k => some (k - 1)

/-- The merge loop of `_paginate` (lines 455-460): concatenate every
page's `results`; a page without the key raises `KeyError`, which the
caller catches to return the raw page list instead (`none` here). -/
def collectResults : List Page → Option (List Int)
  | [] => some []
  | p :: rest =>
    match p.results with
    | none => none
    | some rs =>
      match collectResults rest with
      | none => none
      | some more => some (rs ++ more)

/-- The concatenation of the `results` fields of a page list (what the
merge loop of `_paginate` produces when every page has the key). -/
def concatResults (ps : List Page) : List Int :=
  ps.foldr (fun p acc => p.results.getD [] ++ acc) []

/-- Result of `_paginate`: either one merged record list or a list of
pages. -/
inductive PaginateResult where
  | records : List Int → PaginateResult
  | pages : List Page → PaginateResult
deriving DecidableEq

/-- `BaseClient._paginate` (lines 423-462): decrement an integer page
budget (the initial page counts as page 1), collect the remaining pages
with `get_all_pages` (direction defaults to next), then either merge all
pages' `results` — falling back to the raw page list when a page lacks
the key — or return the page list (raw and decoded pages coincide in the
model). -/
def paginate (fetchUrl : String → Page) (first : Page) (merge_all_pages : Bool)
    (max_pages : Option Int) (raw_page_responses : Bool) (fuel : Nat) :
    Option PaginateResult :=
  let mp := paginateCap max_pages
  if merge_all_pages then
    match get_all_pages fetchUrl first mp "next" fuel with
    | none => none
    | some rest =>
      match collectResults (first :: rest) with
      | some recs => some (.records recs)
      | none => some (.pages (first :: rest))
  else if raw_page_responses then
    match get_all_pages fetchUrl first mp "next" fuel with
    | none => none
    | some rest => some (.pages (first :: rest))
  else
    match get_all_pages fetchUrl first mp "next" fuel with
    | none => none
    | some rest => some (.pages (first :: rest))

/-- The arguments `get_full_range_aggregates` passes to one invocation of
the per-window fetch function `fn`, restricted to the ones the claims are
about (the window bounds and the `sort`/`limit` keywords; `symbol`,
`adjusted`, `multiplier` and `timespan` are forwarded unchanged). -/
structure FetchArgs where
  start : Int
  stop : Int
  sort : String
  limit : Int
deriving DecidableEq

/-- The per-chunk fetch submissions of the concurrent mode of
`BaseClient.get_full_range_aggregates` (lines 533-551): every chunk is
submitted with `sort="asc"` and `limit=500000`, the chunk bounds passing
through `normalize_datetime(·, "nts")` unchanged for integer instants. -/
def parallel_fetch_args (time_chunks : List (Int × Int)) : List FetchArgs :=
  time_chunks.map (fun c => { start := c.1, stop := c.2, sort := "asc", limit := 500000 })

/-- The result-collection loop of concurrent mode (lines 553-573), over
the window results in processing order (`reversed(futures)`): a window
with no `results` key or an empty record list is skipped; otherwise the
records with timestamp strictly above `dupe` (the high-water mark) are
appended and `dupe` becomes `final_results[-1]["t"]`.  `none` models the
`IndexError` raised by `final_results[-1]` on an empty list. -/
def concurrentCollect : List (Option (List Int)) → List Int → Int → Option (List Int × Int)
  | [], acc, dupe => some (acc, dupe)
  | f :: rest, acc, dupe =>
    match f with
    | none => concurrentCollect rest acc dupe
    | some data =>
      if data.length < 1 then concurrentCollect rest acc dupe
      else
        match (acc ++ data.filter (fun c => dupe < c)).getLast? with
        | none => none
        | some t => concurrentCollect rest (acc ++ data.filter (fun c => dupe < c)) t

/-- Concurrent mode of `BaseClient.get_full_range_aggregates`
(lines 525-578): submit every chunk (oldest chunks are submitted last by
the newest-first chunk lists `split_date_range` produces by default),
collect in reversed submission order starting from high-water mark 0, and
reverse the merged series exactly once at the end when a descending sort
was requested.  The caller-supplied `limit` is accepted but never used. -/
def get_full_range_aggregates_parallel (fn : FetchArgs → Option (List Int))
    (time_chunks : List (Int × Int)) (sort : String) (limit : Int) : Option (List Int) :=
  match concurrentCollect ((parallel_fetch_args time_chunks).map fn).reverse [] 0 with
  | none => none
  | some (res, _) => some (if sort = "desc" ∨ sort = "descending" then res.reverse else res)

/-- The `while 1:` walk of sequential mode (lines 623-679): each step
fetches `(current, e)` with the caller's `sort` and `limit=500000`,
breaks on a missing `results` key or an empty batch, appends the records
above the high-water mark `dupe`, breaks when nothing new arrived and the
batch's last timestamp is `≤ dupe`, and otherwise advances `current` and
`dupe` to `final_results[-1]["t"]`.  `none` models fuel exhaustion or the
`IndexError` of `final_results[-1]` on an empty list. -/
def seqLoop (fn : FetchArgs → Option (List Int)) (sortArg : String) :
    Nat → Int → Int → Int → List Int → Option (List Int)
  | 0, _, _, _, _ => none
  | fuel + 1, current, e, dupe, acc =>
    if e ≤ current then some acc
    else
      match fn ⟨current, e, sortArg, 500000⟩ with
      | none => some acc
      | some data =>
        if data.length < 1 then some acc
        else
          let acc2 := acc ++ data.filter (fun c => dupe < c)
          if acc2.length = acc.length ∧ data.getLast?.getD 0 ≤ dupe then some acc2
          else
            match acc2.getLast? with
            | none => none
            | some t => seqLoop fn sortArg fuel t e t acc2

/-- Sequential mode of `get_full_range_aggregates` (lines 580-679):
`time_chunks` here is the overall `(start, end)` pair; a span of at most
one chunk is fetched in a single call (a missing `results` key returns
`[]`), otherwise the walk starts at `current = dupe = start`. -/
def get_full_range_aggregates_sequential (fn : FetchArgs → Option (List Int))
    (start e : Int) (sort : String) (timespan : String) (fuel : Nat) : Option (List Int) :=
  match TIME_FRAME_CHUNKS timespan with
  | none => none
  | some delta =>
    if (e - start).fdiv msPerDay ≤ delta.fdiv msPerDay then
      match fn ⟨start, e, sort, 500000⟩ with
      | some rs => some rs
      | none => some []
    else
      seqLoop fn sort fuel start e start []

/-! ## Concrete collaborators used in scenario theorems -/

/-- A fetch collaborator for the two-window concurrent scenario: the
older window `[0, 10]` holds records `[1, 2, 3]`, the newer one records
`[3, 4, 5]`. -/
def fnScenario (a : FetchArgs) : Option (List Int) :=
  if a.start = 0 then some [1, 2, 3] else some [3, 4, 5]

/-- A fetch collaborator returning an out-of-order batch `[5, 3]` on the
newer window and `[5]` on the older one. -/
def fnUnsorted (a : FetchArgs) : Option (List Int) :=
  if a.start = 0 then some [5] else some [5, 3]

/-- Terminal page of the three-page chain `P0 → P1 → P2`. -/
def pageP2 : Page := { results := some [30], status := some "OK" }

/-- Middle page of the chain, cursor `"u2"` to `pageP2`. -/
def pageP1 : Page := { next_url := some "u2", results := some [20], status := some "OK" }

/-- Initial page of the chain, cursor `"u1"` to `pageP1`. -/
def pageP0 : Page := { next_url := some "u1", results := some [10], status := some "OK" }

/-- The URL-fetch collaborator realizing the chain `P0 → P1 → P2`. -/
def chainFetch (url : String) : Page :=
  if url = "u1" then pageP1 else if url = "u2" then pageP2 else pageP0

/-! ## Helper lemmas -/

theorem TIME_FRAME_CHUNKS_pos (x : String) (dv : Int) (h : TIME_FRAME_CHUNKS x = some dv) :
    0 < dv := by
  unfold TIME_FRAME_CHUNKS at h
  split_ifs at h <;> injection h with h2 <;> subst h2 <;> decide

theorem split_delta_pos (ts : String) (d : Int) (h : split_delta ts false = some d) :
    0 < d := by
  unfold split_delta at h
  rcases hT : TIME_FRAME_CHUNKS (if ts = "min" then "minute" else ts) with _ | dv
  · simp [hT] at h
  · simp [hT] at h
    have := TIME_FRAME_CHUNKS_pos _ dv hT
    omega

theorem splitLoop_cover (delta e : Int) (hdelta : 0 < delta) :
    ∀ (fuel : Nat) (current : Int) (acc : List (Int × Int)),
      current < e → (e - current).toNat ≤ fuel →
      ∃ ws, splitLoop delta e fuel current acc = some (acc ++ ws) ∧
        ws ≠ [] ∧ ws.head?.map Prod.fst = some current ∧
        ws.getLast?.map Prod.snd = some e ∧
        (∀ w ∈ ws, w.1 < w.2) ∧ (∀ w ∈ ws, current ≤ w.1) ∧
        List.Chain' (fun a b => a.2 = b.1) ws ∧
        List.Pairwise (fun a b => a.2 ≤ b.1) ws := by
  intro fuel
  induction fuel with
  | zero => intro current acc hce hfuel; exfalso; omega
  | succ n ih =>
    intro current acc hce hfuel
    by_cases hpr : e ≤ current + delta
    · have hne : current ≠ current + delta := by omega
      refine ⟨[(current, e)], ?_, by simp, by simp, by simp, ?_, ?_, by simp, by simp⟩
      · simp only [splitLoop]
        rw [if_pos hpr, if_neg hne]
      · intro w hw
        simp only [List.mem_singleton] at hw
        subst hw
        simpa using hce
      · intro w hw
        simp only [List.mem_singleton] at hw
        subst hw
        simp
    · have hpr' : current + delta < e := by omega
      obtain ⟨ws', heq, hne', hhead, hlast, hw, hmono, hchain, hpw⟩ :=
        ih (current + delta) (acc ++ [(current, current + delta)]) hpr' (by omega)
      refine ⟨(current, current + delta) :: ws', ?_, by simp, by simp, ?_, ?_, ?_, ?_, ?_⟩
      · simp only [splitLoop]
        rw [if_neg hpr, heq]
        simp
      · cases ws' with
        | nil => exact absurd rfl hne'
        | cons c t => rw [List.getLast?_cons_cons]; exact hlast
      · intro w hw
        rcases List.mem_cons.mp hw with rfl | hw'
        · simpa using hdelta
        · exact ‹∀ w ∈ ws', w.1 < w.2› w hw'
      · intro w hw
        rcases List.mem_cons.mp hw with rfl | hw'
        · simp
        · have := hmono w hw'
          omega
      · cases ws' with
        | nil => exact absurd rfl hne'
        | cons c t =>
          refine List.chain'_cons.mpr ⟨?_, hchain⟩
          simp only [List.head?_cons, Option.map_some', Option.some.injEq] at hhead
          simpa using hhead.symm
      · refine List.pairwise_cons.mpr ⟨?_, hpw⟩
        intro b hb
        have := hmono b hb
        show current + delta ≤ b.1
        omega

/-! ## Claims about the range splitter -/

/-- C2: for `end > start` and a granularity present in the chunk table
(at the default `high_volatility=False`), `split_date_range` yields a
non-empty window list that is chronologically ordered and mutually
disjoint, whose consecutive windows meet exactly at their boundaries, and
which concatenated in chronological order covers exactly `[start, end]`;
the default `reverse=True` call returns the same windows newest-first. -/
theorem C2_split_windows_cover (s e : Int) (ts : String) (delta : Int)
    (hse : s < e) (hd : split_delta ts false = some delta) :
    ∃ ws, split_date_range s e ts false false = some ws ∧ IsChunkCover s e ws ∧
      split_date_range s e ts false true = some ws.reverse := by
  have hdpos : 0 < delta := split_delta_pos ts delta hd
  by_cases hg : (e - s).fdiv msPerDay < delta.fdiv msPerDay
  · refine ⟨[(s, e)], ?_, ?_, ?_⟩
    · simp [split_date_range, hd, hg]
    · refine ⟨by simp, by simp, by simp, ?_, by simp, by simp⟩
      intro w hw
      simp only [List.mem_singleton] at hw
      subst hw
      simpa using hse
    · simp [split_date_range, hd, hg]
  · obtain ⟨ws, heq, hne, hhead, hlast, hw, hmono, hchain, hpw⟩ :=
      splitLoop_cover delta e hdpos ((e - s).toNat + 2) s [] hse (by omega)
    rw [List.nil_append] at heq
    refine ⟨ws, ?_, ⟨hne, hhead, hlast, hw, hchain, hpw⟩, ?_⟩
    · simp [split_date_range, hd, hg, heq]
    · simp [split_date_range, hd, hg, heq]

/-- Witness for C2 at a 46-day minute-granularity range (two chunks). -/
theorem C2_witness :
    ∃ ws, split_date_range 0 3974400000 "minute" false false = some ws ∧
      IsChunkCover 0 3974400000 ws ∧
      split_date_range 0 3974400000 "minute" false true = some ws.reverse :=
  C2_split_windows_cover 0 3974400000 "minute" 3888000000 (by decide) (by decide)

/-- C5: whenever the requested span is smaller than the granularity's
chunk duration, `split_date_range` returns a single window equal to the
original `(start, end)` pair, for every volatility and reverse flag. -/
theorem C5_small_span_single_window (s e : Int) (ts : String) (hv reverse : Bool)
    (delta : Int) (hd : split_delta ts hv = some delta) (hspan : e - s < delta) :
    split_date_range s e ts hv reverse = some [(s, e)] := by
  by_cases hg : (e - s).fdiv msPerDay < delta.fdiv msPerDay
  · simp [split_date_range, hd, hg]
  · have hd0 : delta ≠ 0 := by
      intro h0
      subst h0
      have h1 : (e - s).fdiv msPerDay < 0 := by
        rw [Int.fdiv_eq_ediv _ (by decide)]
        exact Int.ediv_neg' (by omega) (by decide)
      rw [Int.zero_fdiv] at hg
      omega
    have hle : e ≤ s + delta := by omega
    have hne2 : s ≠ s + delta := by omega
    have hfuel : (e - s).toNat + 2 = ((e - s).toNat + 1) + 1 := rfl
    have hloop : splitLoop delta e ((e - s).toNat + 2) s [] = some [(s, e)] := by
      rw [hfuel]
      simp only [splitLoop]
      rw [if_pos hle, if_neg hne2]
      simp
    simp [split_date_range, hd, hg, hloop]

/-- Witness for C5: a five-millisecond span at minute granularity. -/
theorem C5_witness : split_date_range 0 5 "minute" false true = some [(0, 5)] :=
  C5_small_span_single_window 0 5 "minute" false true 3888000000 (by decide) (by decide)

/-- C8: for every granularity the chunk duration used under
`high_volatility=True` is strictly smaller than the one used under
`high_volatility=False`, the day-count discount being 20 for minute/hour
granularities and 1500 for all the others. -/
theorem C8_high_volatility_shrinks (ts : String) (d0 d1 : Int)
    (h0 : split_delta ts false = some d0) (h1 : split_delta ts true = some d1) :
    d1 < d0 ∧ d0.fdiv msPerDay - d1.fdiv msPerDay =
      (if ts = "minute" ∨ ts = "min" ∨ ts = "hour" then 20 else 1500) := by
  by_cases e1 : ts = "min"
  · subst e1
    simp [split_delta, TIME_FRAME_CHUNKS, msPerDay] at h0 h1
    subst h0; subst h1; decide
  by_cases e2 : ts = "second"
  · subst e2
    simp [split_delta, TIME_FRAME_CHUNKS, msPerDay] at h0 h1
    subst h0; subst h1; decide
  by_cases e3 : ts = "minute"
  · subst e3
    simp [split_delta, TIME_FRAME_CHUNKS, msPerDay] at h0 h1
    subst h0; subst h1; decide
  by_cases e4 : ts = "hour"
  · subst e4
    simp [split_delta, TIME_FRAME_CHUNKS, msPerDay] at h0 h1
    subst h0; subst h1; decide
  by_cases e5 : ts = "day"
  · subst e5
    simp [split_delta, TIME_FRAME_CHUNKS, msPerDay] at h0 h1
    subst h0; subst h1; decide
  by_cases e6 : ts = "week"
  · subst e6
    simp [split_delta, TIME_FRAME_CHUNKS, msPerDay] at h0 h1
    subst h0; subst h1; decide
  by_cases e7 : ts = "month"
  · subst e7
    simp [split_delta, TIME_FRAME_CHUNKS, msPerDay] at h0 h1
    subst h0; subst h1; decide
  by_cases e8 : ts = "quarter"
  · subst e8
    simp [split_delta, TIME_FRAME_CHUNKS, msPerDay] at h0 h1
    subst h0; subst h1; decide
  by_cases e9 : ts = "year"
  · subst e9
    simp [split_delta, TIME_FRAME_CHUNKS, msPerDay] at h0 h1
    subst h0; subst h1; decide
  · exfalso
    simp [split_delta, TIME_FRAME_CHUNKS, e1, e2, e3, e4, e5, e6, e7, e8, e9] at h0

/-- Witness for C8 at minute granularity: 25 days versus 45 days. -/
theorem C8_witness :
    (2160000000 : Int) < 3888000000 ∧
      (3888000000 : Int).fdiv msPerDay - (2160000000 : Int).fdiv msPerDay =
        (if "minute" = "minute" ∨ "minute" = "min" ∨ "minute" = "hour" then 20 else 1500) :=
  C8_high_volatility_shrinks "minute" 3888000000 2160000000 (by decide) (by decide)

/-! ## Claims about the time normalizer -/

/-- C7 counterexample: an integer input combined with an unsupported
output kind makes `normalize_datetime` return `None` (modeled `none`); no
error of any kind is raised, refuting the claim that such calls fail with
an `UnsupportedInputKind` error. -/
theorem C7_counterexample : normalize_datetime (.num 5) "bogus" "start" = none := by decide

/-- C7 (amended): for every input shape, an `output_type` outside the
accepted set makes `normalize_datetime` fall through every `isinstance`
branch and return `None` (modeled `none`) instead of raising an error. -/
theorem C7_unsupported_returns_none (dt : DTInput) (output_type _dir : String)
    (h : output_type ∉ (["ts", "nts", "str", "datetime", "date"] : List String)) :
    normalize_datetime dt output_type _dir = none := by
  simp only [List.mem_cons, List.mem_singleton, List.not_mem_nil, or_false, not_or] at h
  obtain ⟨h1, h2, h3, h4, h5⟩ := h
  cases dt <;>
    simp [normalize_datetime, normalize_date_branch, h1, h2, h3, h4, h5]

/-- Witness for C7 at a parsed-string input and an alien output kind. -/
theorem C7_witness : normalize_datetime (.str 7) "x" "start" = none :=
  C7_unsupported_returns_none (.str 7) "x" "start" (by decide)

/-! ## Claims about the pagination walker -/

theorem collectResults_eq_none {ps : List Page} (h : ∃ p ∈ ps, p.results = none) :
    collectResults ps = none := by
  induction ps with
  | nil => simp at h
  | cons p rest ih =>
    rcases h with ⟨q, hq, hqr⟩
    rcases List.mem_cons.mp hq with rfl | hq'
    · simp [collectResults, hqr]
    · unfold collectResults
      rw [ih ⟨q, hq', hqr⟩]
      cases p.results <;> simp

theorem collectResults_all_some {ps : List Page} (h : ∀ p ∈ ps, p.results ≠ none) :
    collectResults ps = some (concatResults ps) := by
  induction ps with
  | nil => simp [collectResults, concatResults]
  | cons p rest ih =>
    rcases hr : p.results with _ | rs
    · exact absurd hr (h p (List.mem_cons_self p rest))
    · unfold collectResults
      rw [hr, ih (fun q hq => h q (List.mem_cons_of_mem p hq))]
      simp [concatResults, hr]

theorem getAllPagesLoop_length_le (fn : Page → Option Page) (c : Int) :
    ∀ (fuel : Nat) (res : Page) (container out : List Page),
      getAllPagesLoop fn (some c) fuel res container = some out →
      (out.length : Int) ≤ max (container.length : Int) c := by
  intro fuel
  induction fuel with
  | zero => intro res container out h; exact absurd h (by simp [getAllPagesLoop])
  | succ n ih =>
    intro res container out h
    unfold getAllPagesLoop at h
    by_cases hcap : c ≤ (container.length : Int)
    · rw [if_pos (by simpa using hcap)] at h
      injection h with h
      subst h
      exact le_max_left _ _
    · rw [if_neg (by simpa using hcap)] at h
      rcases hf : fn res with _ | res2 <;> rw [hf] at h
      · injection h with h
        subst h
        exact le_max_left _ _
      · have := ih res2 (container ++ [res2]) out h
        simp only [List.length_append, List.length_singleton] at this
        push_cast at this ⊢
        omega

/-- C6: when `_paginate` is asked to merge (`merge_all_pages=True`) and
the page walk succeeds, a collected page lacking the `results` key makes
the call return the decoded page list unchanged instead of throwing,
while if every page carries the key the call returns the concatenation of
all pages' records. -/
theorem C6_merge_failover (fetchUrl : String → Page) (first : Page) (mp : Option Int)
    (fuel : Nat) (rest : List Page)
    (h : get_all_pages fetchUrl first (paginateCap mp) "next" fuel = some rest) :
    ((∃ p ∈ first :: rest, p.results = none) →
      paginate fetchUrl first true mp false fuel = some (.pages (first :: rest))) ∧
    ((∀ p ∈ first :: rest, p.results ≠ none) →
      paginate fetchUrl first true mp false fuel =
        some (.records (concatResults (first :: rest)))) := by
  constructor
  · intro hmiss
    simp [paginate, h, collectResults_eq_none hmiss]
  · intro hall
    simp [paginate, h, collectResults_all_some hall]

/-- Witness for C6 on the concrete three-page chain, every page carrying
records: the merged call returns the concatenated records. -/
theorem C6_witness :
    paginate chainFetch pageP0 true none false 10 =
      some (.records (concatResults [pageP0, pageP1, pageP2])) :=
  (C6_merge_failover chainFetch pageP0 none 10 [pageP1, pageP2] (by decide)).2 (by decide)

/-- C4 counterexample: with `max_pages=1` the pagination entry point
returns all 3 pages of the chain instead of 1 — `_paginate` decrements
the budget to 0 and `get_all_pages` treats the falsy 0 as "no cap" — so
the general clause "the initial page counts toward the budget" fails as a
cap bound at `max_pages=1`. -/
theorem C4_counterexample :
    paginate chainFetch pageP0 false (some 1) false 10 =
      some (.pages [pageP0, pageP1, pageP2]) := by decide

/-- C4 (amended): on the chain `P0 → P1 → P2` the pagination entry point
returns exactly 3 pages with no page cap and exactly 2 pages with
`max_pages=2`; the cap is checked before each fetch and the initial page
is counted toward the budget by the `max_pages -= 1` decrement, so for
every integer cap of at least 2 the number of returned pages never
exceeds the cap — but not for `max_pages=1`, whose decremented budget 0
is treated as unlimited by the truthiness test, returning all available
pages. -/
theorem C4_page_cap :
    paginate chainFetch pageP0 false none false 10 =
        some (.pages [pageP0, pageP1, pageP2]) ∧
      paginate chainFetch pageP0 false (some 2) false 10 =
        some (.pages [pageP0, pageP1]) ∧
      ∀ (fetchUrl : String → Page) (first : Page) (k : Int) (fuel : Nat) (ws : List Page),
        2 ≤ k → paginate fetchUrl first false (some k) false fuel = some (.pages ws) →
        (ws.length : Int) ≤ k := by
  refine ⟨by decide, by decide, ?_⟩
  intro fetchUrl first k fuel ws hk h
  have hk1 : ¬(k - 1 = 0) := by omega
  rcases hg : get_all_pages fetchUrl first (some (k - 1)) "next" fuel with _ | rest <;>
    simp [paginate, paginateCap, hg] at h
  subst h
  have hlen : (rest.length : Int) ≤ max ((([] : List Page).length : Int)) (k - 1) :=
    getAllPagesLoop_length_le (get_next_page fetchUrl) (k - 1) fuel first [] rest
      (by simpa [get_all_pages, hk1] using hg)
  rw [max_eq_right (by simp; omega)] at hlen
  simp only [List.length_cons]
  push_cast
  omega

/-- Witness for C4's general cap bound at the concrete chain with
`max_pages=2`. -/
theorem C4_witness : (([pageP0, pageP1] : List Page).length : Int) ≤ 2 :=
  C4_page_cap.2.2 chainFetch pageP0 2 10 [pageP0, pageP1] (by omega) C4_page_cap.2.1

/-- C10: `get_all_pages` with `max_pages=0` behaves exactly like
`max_pages=None` — the `if not max_pages:` truthiness test replaces both
by the infinite cap — so all available pages are walked to cursor
exhaustion, as on the concrete three-page chain. -/
theorem C10_zero_max_pages_means_unlimited :
    (∀ (fetchUrl : String → Page) (old : Page) (direction : String) (fuel : Nat),
        get_all_pages fetchUrl old (some 0) direction fuel =
          get_all_pages fetchUrl old none direction fuel) ∧
      get_all_pages chainFetch pageP0 (some 0) "next" 10 = some [pageP1, pageP2] := by
  constructor
  · intro fetchUrl old direction fuel
    simp [get_all_pages]
  · decide

/-! ## Claims about the fetch-merge engine -/

theorem sorted_le_getLast :
    ∀ (l : List Int), l.Sorted (· < ·) → ∀ (t : Int), l.getLast? = some t → ∀ x ∈ l, x ≤ t := by
  intro l
  induction l with
  | nil => intro _ t ht; simp at ht
  | cons a m ih =>
    intro hs t ht x hx
    cases m with
    | nil =>
      simp only [List.getLast?_singleton, Option.some.injEq] at ht
      simp only [List.mem_singleton] at hx
      omega
    | cons b m2 =>
      rw [List.getLast?_cons_cons] at ht
      have hsc := List.sorted_cons.mp hs
      rcases List.mem_cons.mp hx with rfl | hx'
      · have htm : t ∈ b :: m2 := List.mem_of_getLast?_eq_some ht
        have := hsc.1 t htm
        omega
      · exact ih hsc.2 t ht x hx'

theorem concurrentCollect_sorted :
    ∀ (fs : List (Option (List Int))) (acc : List Int) (dupe : Int) (res : List Int) (d : Int),
      (∀ l : List Int, some l ∈ fs → l.Sorted (· < ·)) →
      acc.Sorted (· < ·) → (∀ x ∈ acc, x ≤ dupe) →
      concurrentCollect fs acc dupe = some (res, d) →
      res.Sorted (· < ·) := by
  intro fs
  induction fs with
  | nil =>
    intro acc dupe res d _ hacc _ h
    simp only [concurrentCollect, Option.some.injEq, Prod.mk.injEq] at h
    rcases h with ⟨rfl, rfl⟩
    exact hacc
  | cons f rest ih =>
    intro acc dupe res d hfs hacc hbound h
    have hfs' : ∀ l : List Int, some l ∈ rest → l.Sorted (· < ·) :=
      fun l hl => hfs l (List.mem_cons_of_mem f hl)
    cases f with
    | none =>
      exact ih acc dupe res d hfs' hacc hbound (by simpa [concurrentCollect] using h)
    | some data =>
      have hdata : data.Sorted (· < ·) := hfs data (List.mem_cons_self _ _)
      by_cases hlen : data.length < 1
      · exact ih acc dupe res d hfs' hacc hbound (by simpa [concurrentCollect, hlen] using h)
      · have hacc2 : (acc ++ data.filter (fun c => decide (dupe < c))).Sorted (· < ·) := by
          refine List.pairwise_append.mpr ⟨hacc, List.Pairwise.filter _ hdata, ?_⟩
          intro x hxa y hyf
          have h1 := hbound x hxa
          have h2 : dupe < y := by simpa using List.of_mem_filter hyf
          omega
        rw [concurrentCollect] at h
        rw [if_neg hlen] at h
        rcases hgl : (acc ++ data.filter (fun c => decide (dupe < c))).getLast? with _ | t <;>
          rw [hgl] at h
        · exact absurd h (by simp)
        · exact ih _ t res d hfs' hacc2 (sorted_le_getLast _ hacc2 t hgl) h

/-- C1 counterexample: with an out-of-order batch inside one window
(processing order puts `[5, 3]` first, then `[5]`), ascending concurrent
mode returns `[5, 3, 5]`, which is neither strictly increasing nor
duplicate-free, refuting the unconditional dedup/ordering claim. -/
theorem C1_counterexample :
    get_full_range_aggregates_parallel fnUnsorted [(0, 10), (10, 20)] "asc" 5000 =
        some [5, 3, 5] ∧
      ¬([5, 3, 5] : List Int).Sorted (· < ·) ∧ ¬([5, 3, 5] : List Int).Nodup :=
  ⟨by decide, by decide, by decide⟩

/-- C1 (amended): provided every window's record batch is strictly
increasing in timestamp (the order the engine requests via `sort="asc"`),
the concurrent merge appends only records above the running high-water
mark and the returned ascending series is strictly increasing with no
duplicate timestamps; in particular the two-window `[1,2,3]`/`[3,4,5]`
scenario returns `[1,2,3,4,5]` with `3` appearing once. -/
theorem C1_duplicate_suppression :
    (∀ (fn : FetchArgs → Option (List Int)) (chunks : List (Int × Int)) (limit : Int)
        (res : List Int),
        (∀ (a : FetchArgs) (l : List Int), fn a = some l → l.Sorted (· < ·)) →
        get_full_range_aggregates_parallel fn chunks "asc" limit = some res →
        res.Sorted (· < ·) ∧ res.Nodup) ∧
      get_full_range_aggregates_parallel fnScenario [(10, 20), (0, 10)] "asc" 5000 =
        some [1, 2, 3, 4, 5] := by
  constructor
  · intro fn chunks limit res hfn h
    have hs : res.Sorted (· < ·) := by
      unfold get_full_range_aggregates_parallel at h
      rcases hc : concurrentCollect ((parallel_fetch_args chunks).map fn).reverse [] 0
        with _ | ⟨r, d⟩ <;> rw [hc] at h
      · exact absurd h (by simp)
      · simp only [Option.some.injEq] at h
        have hr : r = res := by simpa using h
        subst hr
        refine concurrentCollect_sorted _ [] 0 r d ?_ (by simp) (by simp) hc
        intro l hl
        rw [List.mem_reverse] at hl
        obtain ⟨a, _, hfa⟩ := List.mem_map.mp hl
        exact hfn a l hfa
    exact ⟨hs, List.Pairwise.imp (fun h12 => ne_of_lt h12) hs⟩
  · decide

/-- Witness for C1 at the scenario collaborator: the merged series is
strictly increasing and duplicate-free. -/
theorem C1_witness :
    ([1, 2, 3, 4, 5] : List Int).Sorted (· < ·) ∧ ([1, 2, 3, 4, 5] : List Int).Nodup :=
  C1_duplicate_suppression.1 fnScenario [(10, 20), (0, 10)] 5000 [1, 2, 3, 4, 5]
    (fun a l h => by
      by_cases ha : a.start = 0 <;> simp [fnScenario, ha] at h <;> rw [← h] <;> decide)
    C1_duplicate_suppression.2

/-- C3: in sequential mode, a step whose batch contains no record with
timestamp above the high-water mark `dupe` stops the walk immediately —
for any remaining fuel, so the loop terminates there — and the
accumulated results are returned unchanged. -/
theorem C3_sequential_early_stop (fn : FetchArgs → Option (List Int)) (sortArg : String)
    (fuel : Nat) (current e dupe : Int) (acc data : List Int)
    (hce : current < e) (hf : fn ⟨current, e, sortArg, 500000⟩ = some data)
    (hne : data ≠ []) (hall : ∀ t ∈ data, t ≤ dupe) :
    seqLoop fn sortArg (fuel + 1) current e dupe acc = some acc := by
  have hfil : data.filter (fun c => decide (dupe < c)) = [] := by
    rw [List.filter_eq_nil_iff]
    intro a ha
    simpa using Int.not_lt.mpr (hall a ha)
  have hlen : ¬(data.length < 1) := by
    have := List.length_pos.mpr hne
    omega
  have hlast : data.getLast?.getD 0 ≤ dupe := by
    rcases hgl : data.getLast? with _ | t
    · have := List.getLast?_isSome.mpr hne
      rw [hgl] at this
      simp at this
    · simpa using hall t (List.mem_of_getLast?_eq_some hgl)
  simp only [seqLoop]
  rw [if_neg (by omega : ¬ e ≤ current)]
  simp [hf, hfil, hlen, hlast]

/-- Witness for C3: a batch `[1]` against high-water mark 5 stops the walk
with the (empty) accumulated results. -/
theorem C3_witness : seqLoop (fun _ => some [1]) "asc" 3 0 10 5 [] = some [] :=
  C3_sequential_early_stop (fun _ => some [1]) "asc" 2 0 10 5 [] [1] (by decide) rfl
    (by decide) (by decide)

/-- C9: (1) every concurrent per-window fetch is issued with
`limit=500000` and `sort="asc"`, whatever the caller supplied; (2) the
concurrent result does not depend on the caller's `limit` at all; (3) the
sequential walk invokes the fetch function only at `limit=500000` (and the
caller's sort), so its outcome only depends on the fetch function's values
at such arguments; (4) a requested descending order is realized solely by
one final reversal of the ascending merge. -/
theorem C9_fetch_arguments :
    (∀ (chunks : List (Int × Int)) (a : FetchArgs), a ∈ parallel_fetch_args chunks →
        a.limit = 500000 ∧ a.sort = "asc") ∧
      (∀ (fn : FetchArgs → Option (List Int)) (chunks : List (Int × Int)) (srt : String)
          (l l' : Int),
        get_full_range_aggregates_parallel fn chunks srt l =
          get_full_range_aggregates_parallel fn chunks srt l') ∧
      (∀ (fn fn' : FetchArgs → Option (List Int)) (sortArg : String),
        (∀ a : FetchArgs, a.limit = 500000 → a.sort = sortArg → fn a = fn' a) →
        ∀ (fuel : Nat) (current e dupe : Int) (acc : List Int),
          seqLoop fn sortArg fuel current e dupe acc =
            seqLoop fn' sortArg fuel current e dupe acc) ∧
      (∀ (fn : FetchArgs → Option (List Int)) (chunks : List (Int × Int)) (l : Int),
        get_full_range_aggregates_parallel fn chunks "desc" l =
          (get_full_range_aggregates_parallel fn chunks "asc" l).map List.reverse) := by
  refine ⟨?_, ?_, ?_, ?_⟩
  · intro chunks a ha
    obtain ⟨c, _, rfl⟩ := List.mem_map.mp ha
    exact ⟨rfl, rfl⟩
  · intro fn chunks srt l l'
    rfl
  · intro fn fn' sortArg hagree fuel
    induction fuel with
    | zero => intro current e dupe acc; rfl
    | succ n ih =>
      intro current e dupe acc
      simp only [seqLoop]
      rw [hagree ⟨current, e, sortArg, 500000⟩ rfl rfl]
      by_cases hce : e ≤ current
      · simp [hce]
      · simp only [if_neg hce]
        rcases hdata : fn' ⟨current, e, sortArg, 500000⟩ with _ | data
        · rfl
        · by_cases hlen : data.length < 1
          · simp [hlen]
          · by_cases hcond : (acc ++ data.filter (fun c => decide (dupe < c))).length =
                acc.length ∧ data.getLast?.getD 0 ≤ dupe
            · simp [hlen, hcond]
            · simp only [if_neg hlen, if_neg hcond]
              rcases hgl : (acc ++ data.filter (fun c => decide (dupe < c))).getLast?
                with _ | t <;> simp only [hgl]
              exact ih t e t _
  · intro fn chunks l
    rcases hc : concurrentCollect ((parallel_fetch_args chunks).map fn).reverse [] 0
      with _ | ⟨r, d⟩ <;> simp [get_full_range_aggregates_parallel, hc]

/-- Witness for C9's first conjunct at a single chunk. -/
theorem C9_witness :
    ({ start := 0, stop := 1, sort := "asc", limit := 500000 } : FetchArgs).limit = 500000 ∧
      ({ start := 0, stop := 1, sort := "asc", limit := 500000 } : FetchArgs).sort = "asc" :=
  C9_fetch_arguments.1 [(0, 1)] { start := 0, stop := 1, sort := "asc", limit := 500000 }
    (by decide)

end Polygon
